import Mathlib

/-!
Verification of the CDN edge-selection core (`src/cdn.py`).

The registry (`CDNManagementService.servers`, a Python dict keyed by server
id) is embedded as an insertion-ordered association list, which matches
Python dict semantics: assignment to an existing key replaces the value in
place, assignment to a fresh key appends, `del` removes the entry.
Health scores, timestamps and counters are exact rationals / naturals;
geographic coordinates and the haversine distance are real numbers.
-/

namespace CDN

/-- Coordinate pair, the `{"lat": .., "lon": ..}` dictionaries of the source. -/
structure Loc where
  lat : ℝ
  lon : ℝ

/-- One edge server record (`ServerInfo` dataclass, src/cdn.py lines 17-26). -/
structure ServerInfo where
  server_id : String
  host : String
  port : Nat
  location : Loc
  health_score : ℚ := 100
  last_health_check : ℚ := 0
  total_requests : Nat := 0
  error_count : Nat := 0

/-- The registry state: `self.servers`, a Python dict from server id to record. -/
abbrev Registry := List (String × ServerInfo)

/-- Python dict assignment `d[k] = v`: replace in place if the key is
present, otherwise append at the end (insertion order is preserved). -/
def dictSet : Registry → String → ServerInfo → Registry
  | [], k, v => [(k, v)]
  | p :: rest, k, v => if p.1 = k then (k, v) :: rest else p :: dictSet rest k v

/-- Python dict lookup `d.get(k)`: first (unique) entry with the key. -/
def dictGet : Registry → String → Option ServerInfo
  | [], _ => none
  | p :: rest, k => if p.1 = k then some p.2 else dictGet rest k

/-- The `register_server` method: `self.servers[info.server_id] = info`. -/
def register_server (servers : Registry) (info : ServerInfo) : Registry :=
  dictSet servers info.server_id info

/-- The `deregister_server` method: `del self.servers[server_id]` when present. -/
def deregister_server (servers : Registry) (server_id : String) : Registry :=
  servers.filter (fun p => p.1 ≠ server_id)

/-- Degrees to radians, `math.radians`. -/
noncomputable def radians (deg : ℝ) : ℝ := deg * Real.pi / 180

/-- Two-argument arctangent `math.atan2 y x`, with the C-library quadrant
conventions. -/
noncomputable def atan2 (y x : ℝ) : ℝ :=
  if 0 < x then Real.arctan (y / x)
  else if x < 0 then
    (if 0 ≤ y then Real.arctan (y / x) + Real.pi else Real.arctan (y / x) - Real.pi)
  else if 0 < y then Real.pi / 2
  else if y < 0 then -(Real.pi / 2)
  else 0

/-- The `GeolocationService.calculate_network_distance` static method
(src/cdn.py lines 30-52): haversine distance with Earth radius 6371 km. -/
noncomputable def calculate_network_distance (loc1 loc2 : Loc) : ℝ :=
  let R : ℝ := 6371
  let lat1 := radians loc1.lat
  let lon1 := radians loc1.lon
  let lat2 := radians loc2.lat
  let lon2 := radians loc2.lon
  let dlat := lat2 - lat1
  let dlon := lon2 - lon1
  let a := Real.sin (dlat / 2) ^ 2 +
    Real.cos lat1 * Real.cos lat2 * Real.sin (dlon / 2) ^ 2
  let c := 2 * atan2 (Real.sqrt a) (Real.sqrt (1 - a))
  R * c

/-- The composite sort key of `select_optimal_server`:
`(distance(client, s.location), 100 - s.health_score)`. -/
noncomputable def selectKey (client : Loc) (s : ServerInfo) : ℝ × ℚ :=
  (calculate_network_distance client s.location, 100 - s.health_score)

/-- Python tuple comparison `a < b` on the composite key: lexicographic,
first component strict, second breaks ties. -/
def keyLt (a b : ℝ × ℚ) : Prop := a.1 < b.1 ∨ (a.1 = b.1 ∧ a.2 < b.2)

/-- Lexicographic less-or-equal on composite keys. -/
def keyLe (a b : ℝ × ℚ) : Prop := a.1 < b.1 ∨ (a.1 = b.1 ∧ a.2 ≤ b.2)

noncomputable instance : DecidableRel keyLt := fun a b =>
  inferInstanceAs (Decidable (a.1 < b.1 ∨ (a.1 = b.1 ∧ a.2 < b.2)))

/-- Python `min(iterable, key=...)`: scan the tail keeping the current best,
replacing it only when a strictly smaller key appears, so the first element
attaining the minimum key wins. -/
noncomputable def minByKey (client : Loc) : ServerInfo → List ServerInfo → ServerInfo
  | best, [] => best
  | best, s :: rest =>
      minByKey client
        (if keyLt (selectKey client s) (selectKey client best) then s else best) rest

/-- The healthy filter of `select_optimal_server`: servers with
`health_score > 50`. -/
def healthy_servers (servers : Registry) : List ServerInfo :=
  (servers.map Prod.snd).filter (fun s => 50 < s.health_score)

/-- The `select_optimal_server` method (src/cdn.py lines 79-100): filter to
healthy servers, return `None` when none remain, else the minimum under the
composite `(distance, 100 - health)` key. -/
noncomputable def select_optimal_server (servers : Registry) (client : Loc) :
    Option ServerInfo :=
  match healthy_servers servers with
  | [] => none
  | h :: t => some (minByKey client h t)

/-- Per-server body of one health-check pass (src/cdn.py lines 111-115):
when more than 30 seconds elapsed since the last check, decay the score by
`errorCount * 10` (floored at 0) and stamp the check time; otherwise leave
the record untouched. -/
def health_check_update (now : ℚ) (s : ServerInfo) : ServerInfo :=
  if 30 < now - s.last_health_check then
    { s with
      health_score := max 0 (s.health_score - (s.error_count : ℚ) * 10),
      last_health_check := now }
  else s

/-- One pass of the `perform_health_check` loop over a snapshot of the
registry values, at time `now`. -/
def perform_health_check_pass (servers : Registry) (now : ℚ) : Registry :=
  servers.map (fun p => (p.1, health_check_update now p.2))

/-- Clamp a score into `[lo, hi]`. -/
def clamp (x lo hi : ℚ) : ℚ := max lo (min x hi)

/-- Modelled from the spec: the Registry operation `updateHealth(id,
newScore, checkedAt)` of section 4.2 has no standalone definition in
src/cdn.py (the health monitor mutates records inline); per the spec it
clamps `newScore` to [0,100] before storing and advances
`lastHealthCheckTime` to `checkedAt` only when `checkedAt` is greater than
the stored value. -/
def updateHealth (servers : Registry) (server_id : String)
    (newScore checkedAt : ℚ) : Registry :=
  servers.map (fun p =>
    if p.1 = server_id then
      (p.1,
        { p.2 with
          health_score := clamp newScore 0 100,
          last_health_check :=
            if p.2.last_health_check < checkedAt then checkedAt
            else p.2.last_health_check })
    else p)

/-- Modelled from the spec: the counter-update interface of section 6 — the
request-serving collaborator (absent from src/cdn.py) increments
`totalRequests` and `errorCount` of one server; it touches no other field. -/
def update_counters (servers : Registry) (server_id : String)
    (dreq derr : Nat) : Registry :=
  servers.map (fun p =>
    if p.1 = server_id then
      (p.1,
        { p.2 with
          total_requests := p.2.total_requests + dreq,
          error_count := p.2.error_count + derr })
    else p)

/-- Prometheus metric line `cdn_server_<metric>{server_id="<id>"} <value>`. -/
def metric_line (metric server_id value : String) : String :=
  "cdn_server_" ++ metric ++ "\x7bserver_id=\"" ++ server_id ++ "\"\x7d " ++ value

/-- The three lines one registry entry contributes to the export
(src/cdn.py lines 161-165): health, requests, errors. -/
def server_metric_lines (p : String × ServerInfo) : List String :=
  [ metric_line "health" p.1 (toString p.2.health_score),
    metric_line "requests" p.1 (toString p.2.total_requests),
    metric_line "errors" p.1 (toString p.2.error_count) ]

/-- The flat metrics list built by the loop of `generate_metrics`. -/
def metrics_list (servers : Registry) : List String :=
  servers.flatMap server_metric_lines

/-- The `CDNMetricsExporter.generate_metrics` method (src/cdn.py lines
153-167): newline-join of the per-server metric lines. -/
def generate_metrics (servers : Registry) : String :=
  String.intercalate "\n" (metrics_list servers)

/-- Registry states reachable from the empty registry through the core
operations: registration of a fresh record (default health 100, never
checked, zero counters, per the `ContentServer` constructor),
deregistration, a health-check pass, and the external counter increments
that feed `error_count`. Selection and metrics export read the registry
without mutating it. -/
inductive Reachable : Registry → Prop
  | init : Reachable []
  | register (st : Registry) (server_id host : String) (port : Nat) (location : Loc) :
      Reachable st →
      Reachable (register_server st
        { server_id := server_id, host := host, port := port, location := location,
          health_score := 100, last_health_check := 0,
          total_requests := 0, error_count := 0 })
  | deregister (st : Registry) (server_id : String) :
      Reachable st → Reachable (deregister_server st server_id)
  | health_pass (st : Registry) (now : ℚ) :
      Reachable st → Reachable (perform_health_check_pass st now)
  | counters (st : Registry) (server_id : String) (dreq derr : Nat) :
      Reachable st → Reachable (update_counters st server_id dreq derr)

/-! Association-list (Python dict) lemmas. -/

theorem dictGet_dictSet_self (servers : Registry) (k : String) (v : ServerInfo) :
    dictGet (dictSet servers k v) k = some v := by
  induction servers with
  | nil => simp [dictSet, dictGet]
  | cons p rest ih =>
      by_cases hp : p.1 = k
      · simp [dictSet, hp, dictGet]
      · simp [dictSet, hp, dictGet, ih]

theorem dictGet_dictSet_ne (servers : Registry) (k other : String) (v : ServerInfo)
    (hne : other ≠ k) : dictGet (dictSet servers k v) other = dictGet servers other := by
  have hk : ¬ k = other := fun h => hne h.symm
  induction servers with
  | nil => simp [dictSet, dictGet, hk]
  | cons p rest ih =>
      by_cases hp : p.1 = k
      · subst hp
        simp [dictSet, dictGet, hk, ih]
      · simp [dictSet, hp, dictGet, ih]

/-- C10: re-registering an id via `register_server` replaces the whole
stored record with the supplied one — health score, counters and
last-check time all take the values of the new record — and the entries of all
other server ids are untouched. -/
theorem register_replaces_record (servers : Registry) (info : ServerInfo) :
    dictGet (register_server servers info) info.server_id = some info ∧
    ∀ other : String, other ≠ info.server_id →
      dictGet (register_server servers info) other = dictGet servers other := by
  constructor
  · exact dictGet_dictSet_self servers info.server_id info
  · intro other hne
    exact dictGet_dictSet_ne servers info.server_id other info hne

/-- Concrete fixtures: a two-server registry and a replacement record for
the first id with degraded health and nonzero counters. -/
def w_old_a : ServerInfo :=
  { server_id := "a", host := "h1", port := 80, location := { lat := 1, lon := 2 },
    health_score := 40, last_health_check := 77, total_requests := 9, error_count := 6 }

def w_srv_b : ServerInfo :=
  { server_id := "b", host := "h2", port := 81, location := { lat := 3, lon := 4 } }

def w_new_a : ServerInfo :=
  { server_id := "a", host := "h1", port := 80, location := { lat := 1, lon := 2 } }

def w_reg10 : Registry := [("a", w_old_a), ("b", w_srv_b)]

theorem register_replaces_record_witness :
    ("b" ≠ w_new_a.server_id) ∧
    (dictGet (register_server w_reg10 w_new_a) w_new_a.server_id = some w_new_a ∧
     dictGet (register_server w_reg10 w_new_a) "b" = dictGet w_reg10 "b") := by
  have hb : "b" ≠ w_new_a.server_id := by simp [w_new_a]
  exact ⟨hb, (register_replaces_record w_reg10 w_new_a).1,
    (register_replaces_record w_reg10 w_new_a).2 "b" hb⟩

/-! Lexicographic composite-key order. -/

theorem keyLe_refl (a : ℝ × ℚ) : keyLe a a := Or.inr ⟨rfl, le_refl _⟩

theorem keyLt_keyLe {a b : ℝ × ℚ} (h : keyLt a b) : keyLe a b := by
  rcases h with h | ⟨h1, h2⟩
  · exact Or.inl h
  · exact Or.inr ⟨h1, le_of_lt h2⟩

theorem keyLe_of_not_keyLt {a b : ℝ × ℚ} (h : ¬ keyLt a b) : keyLe b a := by
  unfold keyLt at h
  push_neg at h
  rcases lt_trichotomy b.1 a.1 with h1 | h1 | h1
  · exact Or.inl h1
  · exact Or.inr ⟨h1, h.2 h1.symm⟩
  · exact absurd h1 (not_lt.mpr h.1)

theorem keyLe_trans {a b c : ℝ × ℚ} (hab : keyLe a b) (hbc : keyLe b c) :
    keyLe a c := by
  rcases hab with h1 | ⟨h1, h2⟩ <;> rcases hbc with h3 | ⟨h3, h4⟩
  · exact Or.inl (lt_trans h1 h3)
  · exact Or.inl (h3 ▸ h1)
  · exact Or.inl (h1 ▸ h3)
  · exact Or.inr ⟨h1.trans h3, h2.trans h4⟩

/-! Properties of the Python `min(list, key=...)` scan. -/

theorem minByKey_eq_or_mem (client : Loc) (best : ServerInfo) (l : List ServerInfo) :
    minByKey client best l = best ∨ minByKey client best l ∈ l := by
  induction l generalizing best with
  | nil => exact Or.inl rfl
  | cons s rest ih =>
      rcases ih (if keyLt (selectKey client s) (selectKey client best) then s else best) with
        h | h
      · rw [minByKey, h]
        by_cases hc : keyLt (selectKey client s) (selectKey client best)
        · rw [if_pos hc]
          exact Or.inr (List.mem_cons_self s rest)
        · rw [if_neg hc]
          exact Or.inl rfl
      · rw [minByKey]
        exact Or.inr (List.mem_cons_of_mem s h)

theorem minByKey_le (client : Loc) (best : ServerInfo) (l : List ServerInfo) :
    keyLe (selectKey client (minByKey client best l)) (selectKey client best) ∧
    ∀ s ∈ l, keyLe (selectKey client (minByKey client best l)) (selectKey client s) := by
  induction l generalizing best with
  | nil =>
      refine ⟨keyLe_refl _, ?_⟩
      intro s hs
      cases hs
  | cons s rest ih =>
      rcases ih (if keyLt (selectKey client s) (selectKey client best) then s else best) with
        ⟨ihbest, ihall⟩
      have hbest2_best :
          keyLe (selectKey client
              (if keyLt (selectKey client s) (selectKey client best) then s else best))
            (selectKey client best) := by
        by_cases hc : keyLt (selectKey client s) (selectKey client best)
        · rw [if_pos hc]
          exact keyLt_keyLe hc
        · rw [if_neg hc]
          exact keyLe_refl _
      have hbest2_s :
          keyLe (selectKey client
              (if keyLt (selectKey client s) (selectKey client best) then s else best))
            (selectKey client s) := by
        by_cases hc : keyLt (selectKey client s) (selectKey client best)
        · rw [if_pos hc]
          exact keyLe_refl _
        · rw [if_neg hc]
          exact keyLe_of_not_keyLt hc
      constructor
      · rw [minByKey]
        exact keyLe_trans ihbest hbest2_best
      · intro t ht
        rw [minByKey]
        rcases List.mem_cons.mp ht with rfl | ht
        · exact keyLe_trans ihbest hbest2_s
        · exact ihall t ht

/-! Selection-engine results. -/

theorem select_mem_healthy {servers : Registry} {client : Loc} {r : ServerInfo}
    (h : select_optimal_server servers client = some r) :
    r ∈ healthy_servers servers := by
  unfold select_optimal_server at h
  rcases hh : healthy_servers servers with _ | ⟨h0, t⟩
  · rw [hh] at h
    cases h
  · rw [hh] at h
    have hr : minByKey client h0 t = r := by
      exact Option.some.inj h
    rcases minByKey_eq_or_mem client h0 t with he | he
    · rw [hr] at he
      rw [he]
      exact List.mem_cons_self h0 t
    · rw [hr] at he
      exact List.mem_cons_of_mem h0 he

/-- C1: whenever `select_optimal_server` returns a record, that record
passed the healthy filter, so its health score is strictly above 50; the
function never returns a record with score at most 50. -/
theorem select_healthy (servers : Registry) (client : Loc) (r : ServerInfo)
    (h : select_optimal_server servers client = some r) : 50 < r.health_score := by
  have hm := select_mem_healthy h
  unfold healthy_servers at hm
  simpa using (List.mem_filter.mp hm).2

/-- C2: `select_optimal_server` returns `none` exactly when the healthy
filter (health score strictly above 50) leaves no server. -/
theorem select_none_iff_healthy_empty (servers : Registry) (client : Loc) :
    select_optimal_server servers client = none ↔ healthy_servers servers = [] := by
  unfold select_optimal_server
  rcases hh : healthy_servers servers with _ | ⟨h0, t⟩ <;> simp

/-- C3: when a record is returned, it belongs to the healthy set and its
composite key `(distance(client, loc), 100 - health)` is lexicographically
least among all healthy records: distance first, degraded health breaking
ties. -/
theorem select_minimizes (servers : Registry) (client : Loc) (r : ServerInfo)
    (h : select_optimal_server servers client = some r) :
    r ∈ healthy_servers servers ∧
    ∀ s ∈ healthy_servers servers, keyLe (selectKey client r) (selectKey client s) := by
  refine ⟨select_mem_healthy h, ?_⟩
  unfold select_optimal_server at h
  rcases hh : healthy_servers servers with _ | ⟨h0, t⟩
  · rw [hh] at h
    cases h
  · rw [hh] at h
    have hr : minByKey client h0 t = r := Option.some.inj h
    intro s hs
    rcases List.mem_cons.mp hs with hs1 | hs2
    · rw [← hr, hs1]
      exact (minByKey_le client h0 t).1
    · rw [← hr]
      exact (minByKey_le client h0 t).2 s hs2

/-- C8: selection is a pure function of the registry snapshot and the
client location — two calls on the same inputs agree. -/
theorem select_deterministic (servers : Registry) (client : Loc)
    (r1 r2 : Option ServerInfo) (h1 : select_optimal_server servers client = r1)
    (h2 : select_optimal_server servers client = r2) : r1 = r2 := by
  rw [← h1, ← h2]

/-- Concrete fixture for the selection claims: one registered New York
server with its default health of 100, and a client in New York. -/
def w_server : ServerInfo :=
  { server_id := "ny", host := "localhost", port := 8080,
    location := { lat := 40.7128, lon := -74.006 } }

def w_reg : Registry := [("ny", w_server)]

def w_client : Loc := { lat := 40.73, lon := -73.93 }

theorem select_w_eval : select_optimal_server w_reg w_client = some w_server := by
  norm_num [select_optimal_server, healthy_servers, w_reg, w_server, minByKey]

theorem select_healthy_witness :
    select_optimal_server w_reg w_client = some w_server ∧
    50 < w_server.health_score :=
  ⟨select_w_eval, select_healthy w_reg w_client w_server select_w_eval⟩

theorem select_minimizes_witness :
    (select_optimal_server w_reg w_client = some w_server ∧
     w_server ∈ healthy_servers w_reg) ∧
    keyLe (selectKey w_client w_server) (selectKey w_client w_server) := by
  have hmem : w_server ∈ healthy_servers w_reg := by
    norm_num [healthy_servers, w_reg, w_server]
  exact ⟨⟨select_w_eval, hmem⟩,
    (select_minimizes w_reg w_client w_server select_w_eval).2 w_server hmem⟩

theorem select_deterministic_witness :
    (select_optimal_server w_reg w_client = some w_server ∧
     select_optimal_server w_reg w_client = some w_server) ∧
    (some w_server : Option ServerInfo) = some w_server :=
  ⟨⟨select_w_eval, select_w_eval⟩,
    select_deterministic w_reg w_client (some w_server) (some w_server)
      select_w_eval select_w_eval⟩

/-! Distance-model results. -/

theorem sin_half_sq_comm (x y : ℝ) :
    Real.sin ((x - y) / 2) ^ 2 = Real.sin ((y - x) / 2) ^ 2 := by
  rw [show ((y - x) / 2 : ℝ) = -((x - y) / 2) by ring, Real.sin_neg, neg_sq]

/-- C4: the haversine distance is a total function on coordinates with no
error conditions; it is symmetric in its two arguments and evaluates to
zero whenever the two coordinates coincide. -/
theorem distance_symm_and_zero_on_diag (a b : Loc) :
    calculate_network_distance a b = calculate_network_distance b a ∧
    calculate_network_distance a a = 0 := by
  constructor
  · simp only [calculate_network_distance]
    rw [sin_half_sq_comm (radians b.lat) (radians a.lat),
      sin_half_sq_comm (radians b.lon) (radians a.lon),
      mul_comm (Real.cos (radians a.lat)) (Real.cos (radians b.lat))]
  · simp only [calculate_network_distance, sub_self, zero_div, Real.sin_zero]
    norm_num [atan2, Real.sqrt_zero, Real.sqrt_one, Real.arctan_zero]

/-! Health-check pass results. -/

/-- C5: in one health-check pass at time `now`, a snapshot entry whose
elapsed time since its last check exceeds the 30-second interval gets
exactly the score `max 0 (health_score - error_count * 10)` and the new
check time, while an entry within the interval is left unchanged; no entry
moves or disappears. -/
theorem health_pass_pointwise (servers : Registry) (now : ℚ) (i : Nat)
    (server_id : String) (s : ServerInfo)
    (h : servers[i]? = some (server_id, s)) :
    (30 < now - s.last_health_check →
      (perform_health_check_pass servers now)[i]? =
        some (server_id,
          { s with
            health_score := max 0 (s.health_score - (s.error_count : ℚ) * 10),
            last_health_check := now })) ∧
    (¬ 30 < now - s.last_health_check →
      (perform_health_check_pass servers now)[i]? = some (server_id, s)) := by
  unfold perform_health_check_pass
  rw [List.getElem?_map, h]
  constructor <;> intro hc <;> simp [health_check_update, hc]

/-- Fixture for the pass claims: a stale server (never checked) and a
fresh server (checked at time 10), with the pass running at time 31. -/
def w_stale : ServerInfo :=
  { server_id := "st", host := "h1", port := 80, location := { lat := 0, lon := 0 },
    health_score := 80, last_health_check := 0, total_requests := 5, error_count := 3 }

def w_fresh : ServerInfo :=
  { server_id := "fr", host := "h2", port := 81, location := { lat := 0, lon := 1 },
    health_score := 90, last_health_check := 10, total_requests := 2, error_count := 1 }

def w_reg5 : Registry := [("st", w_stale), ("fr", w_fresh)]

theorem health_pass_pointwise_witness :
    (w_reg5[0]? = some ("st", w_stale) ∧
     (30 : ℚ) < 31 - w_stale.last_health_check) ∧
    (perform_health_check_pass w_reg5 31)[0]? =
      some ("st",
        { w_stale with
          health_score := max 0 (w_stale.health_score - (w_stale.error_count : ℚ) * 10),
          last_health_check := 31 }) := by
  have hs : (30 : ℚ) < 31 - w_stale.last_health_check := by norm_num [w_stale]
  exact ⟨⟨rfl, hs⟩, (health_pass_pointwise w_reg5 31 0 "st" w_stale rfl).1 hs⟩

/-- Lookup through a key-preserving per-record map. -/
theorem dictGet_map_keyed (g : String → ServerInfo → ServerInfo)
    (servers : Registry) (k : String) :
    dictGet (servers.map (fun p => (p.1, g p.1 p.2))) k =
      (dictGet servers k).map (g k) := by
  induction servers with
  | nil => rfl
  | cons p rest ih =>
      by_cases hp : p.1 = k
      · subst hp
        simp [dictGet]
      · simp [dictGet, hp, ih]

/-- Lookup through a health-check pass: the pass is a per-record map that
keeps keys, so `dictGet` commutes with it. -/
theorem dictGet_health_pass (servers : Registry) (now : ℚ) (k : String) :
    dictGet (perform_health_check_pass servers now) k =
      (dictGet servers k).map (health_check_update now) :=
  dictGet_map_keyed (fun _ v => health_check_update now v) servers k

theorem updateHealth_eq_map (servers : Registry) (server_id : String)
    (newScore checkedAt : ℚ) :
    updateHealth servers server_id newScore checkedAt =
      servers.map (fun p =>
        (p.1,
          if p.1 = server_id then
            { p.2 with
              health_score := clamp newScore 0 100,
              last_health_check :=
                if p.2.last_health_check < checkedAt then checkedAt
                else p.2.last_health_check }
          else p.2)) := by
  unfold updateHealth
  refine List.map_congr_left ?_
  intro p hp
  by_cases h : p.1 = server_id <;> simp [h]

/-- Lookup through `updateHealth`: the targeted id gets the clamped score
and guarded timestamp, every other id keeps its record. -/
theorem dictGet_updateHealth (servers : Registry) (server_id : String)
    (newScore checkedAt : ℚ) (k : String) :
    dictGet (updateHealth servers server_id newScore checkedAt) k =
      (dictGet servers k).map (fun r =>
        if k = server_id then
          { r with
            health_score := clamp newScore 0 100,
            last_health_check :=
              if r.last_health_check < checkedAt then checkedAt
              else r.last_health_check }
        else r) := by
  rw [updateHealth_eq_map]
  exact dictGet_map_keyed
    (fun key v =>
      if key = server_id then
        { v with
          health_score := clamp newScore 0 100,
          last_health_check :=
            if v.last_health_check < checkedAt then checkedAt
            else v.last_health_check }
      else v) servers k

/-- C6: after `updateHealth(id, s, t)` on a registered id, the stored
record carries exactly the score clamped into [0, 100], and the check time
advances to `t` only when `t` is strictly newer than the stored time,
staying put otherwise; the other fields are untouched. -/
theorem updateHealth_clamps_and_guards (servers : Registry) (server_id : String)
    (s t : ℚ) (r : ServerInfo) (h : dictGet servers server_id = some r) :
    dictGet (updateHealth servers server_id s t) server_id =
      some
        { r with
          health_score := clamp s 0 100,
          last_health_check :=
            if r.last_health_check < t then t else r.last_health_check } := by
  rw [dictGet_updateHealth, h]
  simp

theorem updateHealth_clamps_and_guards_witness :
    dictGet w_reg5 "st" = some w_stale ∧
    dictGet (updateHealth w_reg5 "st" 250 (-5)) "st" =
      some
        { w_stale with
          health_score := clamp 250 0 100,
          last_health_check :=
            if w_stale.last_health_check < -5 then -5
            else w_stale.last_health_check } :=
  ⟨rfl, updateHealth_clamps_and_guards w_reg5 "st" 250 (-5) w_stale rfl⟩

/-! Registry invariants over reachable states. -/

theorem mem_dictSet {q : String × ServerInfo} {servers : Registry} {k : String}
    {v : ServerInfo} (h : q ∈ dictSet servers k v) : q = (k, v) ∨ q ∈ servers := by
  induction servers with
  | nil =>
      simp [dictSet] at h
      exact Or.inl h
  | cons p rest ih =>
      by_cases hp : p.1 = k
      · rw [dictSet, if_pos hp] at h
        rcases List.mem_cons.mp h with h | h
        · exact Or.inl h
        · exact Or.inr (List.mem_cons_of_mem p h)
      · rw [dictSet, if_neg hp] at h
        rcases List.mem_cons.mp h with h | h
        · exact Or.inr (h ▸ List.mem_cons_self p rest)
        · rcases ih h with h | h
          · exact Or.inl h
          · exact Or.inr (List.mem_cons_of_mem p h)

theorem health_check_update_bounds (now : ℚ) (v : ServerInfo)
    (h0 : 0 ≤ v.health_score) (h100 : v.health_score ≤ 100) :
    0 ≤ (health_check_update now v).health_score ∧
    (health_check_update now v).health_score ≤ 100 := by
  unfold health_check_update
  by_cases hc : 30 < now - v.last_health_check
  · rw [if_pos hc]
    refine ⟨le_max_left _ _, max_le (by norm_num) ?_⟩
    have hec : (0 : ℚ) ≤ (v.error_count : ℚ) * 10 := by positivity
    linarith
  · rw [if_neg hc]
    exact ⟨h0, h100⟩

theorem health_check_update_time_mono (now : ℚ) (v : ServerInfo) :
    v.last_health_check ≤ (health_check_update now v).last_health_check := by
  unfold health_check_update
  by_cases hc : 30 < now - v.last_health_check
  · rw [if_pos hc]
    show v.last_health_check ≤ now
    linarith
  · rw [if_neg hc]

theorem update_counters_eq_map (servers : Registry) (server_id : String)
    (dreq derr : Nat) :
    update_counters servers server_id dreq derr =
      servers.map (fun p =>
        (p.1,
          if p.1 = server_id then
            { p.2 with
              total_requests := p.2.total_requests + dreq,
              error_count := p.2.error_count + derr }
          else p.2)) := by
  unfold update_counters
  refine List.map_congr_left ?_
  intro p hp
  by_cases h : p.1 = server_id <;> simp [h]

theorem dictGet_update_counters (servers : Registry) (server_id : String)
    (dreq derr : Nat) (k : String) :
    dictGet (update_counters servers server_id dreq derr) k =
      (dictGet servers k).map (fun r =>
        if k = server_id then
          { r with
            total_requests := r.total_requests + dreq,
            error_count := r.error_count + derr }
        else r) := by
  rw [update_counters_eq_map]
  exact dictGet_map_keyed
    (fun key v =>
      if key = server_id then
        { v with
          total_requests := v.total_requests + dreq,
          error_count := v.error_count + derr }
      else v) servers k

theorem dictGet_deregister (st : Registry) (sid k : String) :
    dictGet (deregister_server st sid) k = if k = sid then none else dictGet st k := by
  induction st with
  | nil => simp [deregister_server, dictGet]
  | cons p rest ih =>
      by_cases hp : p.1 = sid
      · have hfilter : deregister_server (p :: rest) sid = deregister_server rest sid := by
          simp [deregister_server, hp]
        rw [hfilter, ih]
        by_cases hk : k = sid
        · simp [hk]
        · rw [if_neg hk, if_neg hk]
          have hpk : ¬ p.1 = k := by
            rw [hp]
            exact fun h => hk h.symm
          rw [dictGet, if_neg hpk]
      · have hfilter : deregister_server (p :: rest) sid = p :: deregister_server rest sid := by
          simp [deregister_server, hp]
        rw [hfilter]
        by_cases hk2 : p.1 = k
        · have hks : ¬ k = sid := fun h => hp (hk2.trans h)
          rw [dictGet, if_pos hk2, if_neg hks, dictGet, if_pos hk2]
        · rw [dictGet, if_neg hk2, ih]
          by_cases hk : k = sid
          · simp [hk]
          · rw [if_neg hk, if_neg hk, dictGet, if_neg hk2]

/-- C7: in every registry state reachable through the core operations —
registration of fresh records (health 100, never checked), deregistration,
health-check passes, and the external counter increments — the
health score of every record stays within [0, 100]; and the last-check time of a record
that survives a health-check pass, a deregistration of some id, or a
counter update never decreases (re-registration replaces the record with a
fresh one, starting a new lifetime). -/
theorem reachable_health_bounds_and_time_mono :
    (∀ st : Registry, Reachable st →
      ∀ p ∈ st, 0 ≤ p.2.health_score ∧ p.2.health_score ≤ 100) ∧
    (∀ (st : Registry) (now : ℚ) (k : String) (r1 r2 : ServerInfo),
      dictGet st k = some r1 →
      dictGet (perform_health_check_pass st now) k = some r2 →
      r1.last_health_check ≤ r2.last_health_check) ∧
    (∀ (st : Registry) (sid k : String) (r1 r2 : ServerInfo),
      dictGet st k = some r1 →
      dictGet (deregister_server st sid) k = some r2 →
      r1.last_health_check ≤ r2.last_health_check) ∧
    (∀ (st : Registry) (sid k : String) (dreq derr : Nat) (r1 r2 : ServerInfo),
      dictGet st k = some r1 →
      dictGet (update_counters st sid dreq derr) k = some r2 →
      r1.last_health_check ≤ r2.last_health_check) := by
  refine ⟨?_, ?_, ?_, ?_⟩
  · intro st hre
    induction hre with
    | init =>
        intro p hp
        cases hp
    | register st sid host port loc hre ih =>
        intro p hp
        rcases mem_dictSet hp with h | h
        · rw [h]
          norm_num
        · exact ih p h
    | deregister st sid hre ih =>
        intro p hp
        exact ih p (List.mem_of_mem_filter hp)
    | health_pass st now hre ih =>
        intro p hp
        rcases List.mem_map.mp hp with ⟨q, hq, hq2⟩
        rw [← hq2]
        exact health_check_update_bounds now q.2 (ih q hq).1 (ih q hq).2
    | counters st sid dreq derr hre ih =>
        intro p hp
        rw [update_counters_eq_map] at hp
        rcases List.mem_map.mp hp with ⟨q, hq, hq2⟩
        rw [← hq2]
        by_cases h : q.1 = sid <;> simp only [h, if_pos, if_neg, if_true, if_false]
        · exact ih q hq
        · exact ih q hq
  · intro st now k r1 r2 h1 h2
    rw [dictGet_health_pass, h1] at h2
    have : health_check_update now r1 = r2 := Option.some.inj h2
    rw [← this]
    exact health_check_update_time_mono now r1
  · intro st sid k r1 r2 h1 h2
    rw [dictGet_deregister] at h2
    by_cases hk : k = sid
    · rw [if_pos hk] at h2
      cases h2
    · rw [if_neg hk, h1] at h2
      rw [Option.some.inj h2]
  · intro st sid k dreq derr r1 r2 h1 h2
    rw [dictGet_update_counters, h1] at h2
    have h3 : (if k = sid then
        { r1 with
          total_requests := r1.total_requests + dreq,
          error_count := r1.error_count + derr }
      else r1) = r2 := Option.some.inj h2
    rw [← h3]
    by_cases hk : k = sid
    · rw [if_pos hk]
    · rw [if_neg hk]

/-- Fixture for the invariant claim: the reachable one-server registry
obtained by a single fresh registration. -/
def w_rec7 : ServerInfo :=
  { server_id := "a", host := "h", port := 80, location := { lat := 0, lon := 0 },
    health_score := 100, last_health_check := 0, total_requests := 0, error_count := 0 }

def w_reg7 : Registry := register_server [] w_rec7

theorem reachable_health_bounds_and_time_mono_witness :
    (Reachable w_reg7 ∧ ("a", w_rec7) ∈ w_reg7) ∧
    (0 ≤ ("a", w_rec7).2.health_score ∧ ("a", w_rec7).2.health_score ≤ 100) := by
  have hre : Reachable w_reg7 :=
    Reachable.register [] "a" "h" 80 { lat := 0, lon := 0 } Reachable.init
  have hmem : ("a", w_rec7) ∈ w_reg7 := by
    simp [w_reg7, register_server, dictSet, w_rec7]
  exact ⟨⟨hre, hmem⟩,
    reachable_health_bounds_and_time_mono.1 w_reg7 hre ("a", w_rec7) hmem⟩

/-! Metrics-exporter results. -/

/-- C9: the export of an empty registry is the empty string, and a
populated registry yields exactly three metric lines per registered
server — health, requests and errors — each of the Prometheus form
produced by `metric_line`. -/
theorem generate_metrics_shape :
    generate_metrics [] = "" ∧
    ∀ servers : Registry,
      (metrics_list servers).length = 3 * servers.length ∧
      ∀ p ∈ servers,
        metric_line "health" p.1 (toString p.2.health_score) ∈ metrics_list servers ∧
        metric_line "requests" p.1 (toString p.2.total_requests) ∈ metrics_list servers ∧
        metric_line "errors" p.1 (toString p.2.error_count) ∈ metrics_list servers := by
  refine ⟨rfl, ?_⟩
  intro servers
  constructor
  · induction servers with
    | nil => rfl
    | cons p rest ih =>
        show (server_metric_lines p ++ metrics_list rest).length = 3 * (p :: rest).length
        rw [List.length_append, ih, List.length_cons]
        have h3 : (server_metric_lines p).length = 3 := rfl
        rw [h3]
        ring
  · intro p hp
    refine ⟨?_, ?_, ?_⟩ <;>
      exact List.mem_flatMap.mpr ⟨p, hp, by simp [server_metric_lines]⟩

theorem generate_metrics_shape_witness :
    ("st", w_stale) ∈ w_reg5 ∧
    metric_line "health" "st" (toString w_stale.health_score) ∈ metrics_list w_reg5 := by
  have hp : ("st", w_stale) ∈ w_reg5 := by simp [w_reg5]
  exact ⟨hp, ((generate_metrics_shape.2 w_reg5).2 ("st", w_stale) hp).1⟩

end CDN
